import Mathlib

/-!
Verification of the ChenDesk remote-desktop protocol engine
(src/chendesk-simple/chendesk.py) against its natural-language
specification.

The Python source is shallowly embedded: bytes are `Nat` (0..255), byte
strings are `List Nat`, a TCP connection is modelled by the sequence of
results that successive `recv` calls return (`List (List Nat)`), and each
stateful loop of the source becomes a recursive Lean function over that
sequence.  External libraries that the engine calls (zlib, OpenCV, pynput)
are modelled by small executable functions whose doc comments state which
documented behavior of the library they capture.
-/

set_option maxRecDepth 10000

namespace ChenDesk

/-- BUFFER_SIZE = 65536, from the source's CONFIG section. -/
def BUFFER_SIZE : Nat := 65536

/-- Big-endian 4-byte encoding of a 32-bit value, as produced for each field
of Python's struct.pack with format !II (the source packs headers this way). -/
def u32be (n : Nat) : List Nat :=
  [n / 2 ^ 24 % 256, n / 2 ^ 16 % 256, n / 2 ^ 8 % 256, n % 256]

/-- Big-endian decoding of a 4-byte list, as done for each field of Python's
struct.unpack with format !II. -/
def u32beDecode : List Nat → Nat
  | [a, b, c, d] => ((a * 256 + b) * 256 + c) * 256 + d
  | _ => 0

/-- struct.unpack with format !II : succeeds only on exactly 8 bytes
(struct.error is raised otherwise), yielding the two big-endian words. -/
def unpackII (h : List Nat) : Option (Nat × Nat) :=
  if h.length = 8 then some (u32beDecode (h.take 4), u32beDecode (h.drop 4)) else none

/-- ScreenClient._recv_exact, embedded over the sequence of chunks the
socket's successive recv calls return.  Mirrors the source loop: while the
accumulated data is shorter than `size`, call recv; an empty recv result
(peer closed, also modelled by the chunk sequence running out) makes the
whole call return None.  Returns the result together with the chunks not
yet consumed. -/
def recvExactGo (size : Nat) : List (List Nat) → List Nat → Option (List Nat) × List (List Nat)
  | [], data =>
    if size ≤ data.length then (some data, []) else (none, [])
  | c :: rest, data =>
    if size ≤ data.length then (some data, c :: rest)
    else if c.isEmpty then (none, rest)
    else recvExactGo size rest (data ++ c)

/-- ScreenClient._recv_exact entry point: starts from the empty buffer. -/
def recvExact (size : Nat) (chunks : List (List Nat)) : Option (List Nat) × List (List Nat) :=
  recvExactGo size chunks []

/-- A chunk sequence is a possible sequence of recv results for a reader that
still needs `need` bytes: each recv returns at most the number of bytes
requested, and the source requests min(size - len(data), BUFFER_SIZE). -/
def validChunks : Nat → List (List Nat) → Bool
  | _, [] => true
  | need, c :: rest =>
    decide (c.length ≤ min need BUFFER_SIZE) && validChunks (need - c.length) rest

/-- Modelled from the zlib external library's documented stream format:
zlib.decompress raises zlib.error unless the two-byte stream header has
compression method 8 (deflate), a window-size nibble at most 7, and passes
the header check (the 16-bit header is a multiple of 31).  The inflate byte
transformation itself is left abstract (the identity on the bytes after the
header), since no claim depends on the decompressed contents, only on
whether decompression succeeds. -/
def zlibDecompress (data : List Nat) : Option (List Nat) :=
  match data with
  | b0 :: b1 :: rest =>
    if b0 % 16 = 8 ∧ b0 / 16 ≤ 7 ∧ (b0 * 256 + b1) % 31 = 0 then some rest else none
  | _ => none

/-- A decoded screen bitmap (the decoded pixel contents are irrelevant to
every claim; the encoded bytes identify the frame). -/
structure Bitmap where
  bytes : List Nat
deriving DecidableEq

/-- Modelled from the OpenCV external library: cv2.imdecode does not raise on
a corrupt buffer, it returns None (no image); success is modelled by the
JPEG start-of-image signature FF D8 that every buffer produced by
cv2.imencode with format .jpg begins with. -/
def imdecode (buf : List Nat) : Option Bitmap :=
  match buf with
  | 255 :: 216 :: _ => some ⟨buf⟩
  | _ => none

/-- Outcome of one iteration of ScreenClient._receive_stream's while-loop. -/
inductive IterOut where
  /-- the loop breaks: the receive loop and hence the connection handling end -/
  | stop : IterOut
  /-- a bitmap was decoded and handed to the display callback; loop continues -/
  | delivered : Bitmap → IterOut
  /-- cv2.imdecode yielded no image: the frame is silently dropped; loop continues -/
  | skipped : IterOut
deriving DecidableEq

/-- One iteration of ScreenClient._receive_stream, embedded over the sequence
of recv results: read 8 header bytes with _recv_exact (break when it yields
None, mirroring the falsiness test on the result), unpack size and scale
(struct.error is caught by the surrounding except and breaks the loop),
read `size` payload bytes (break when None or empty, mirroring the
falsiness test), zlib-decompress (zlib.error is caught and breaks the
loop), cv2.imdecode, and invoke the callback when an image was decoded.
Returns the iteration outcome and the chunks not yet consumed. -/
def receiveIter (chunks : List (List Nat)) : IterOut × List (List Nat) :=
  match recvExact 8 chunks with
  | (none, rest) => (.stop, rest)
  | (some header, rest) =>
    if header.isEmpty then (.stop, rest)
    else
      match unpackII header with
      | none => (.stop, rest)
      | some (size, _scale) =>
        match recvExact size rest with
        | (none, rest2) => (.stop, rest2)
        | (some data, rest2) =>
          if data.isEmpty then (.stop, rest2)
          else
            match zlibDecompress data with
            | none => (.stop, rest2)
            | some buf =>
              match imdecode buf with
              | none => (.skipped, rest2)
              | some f => (.delivered f, rest2)

/-- The opening curly bracket character. -/
def lbrace : Char := Char.ofNat 123

/-- The closing curly bracket character. -/
def rbrace : Char := Char.ofNat 125

/-- JSON values of the shape the control channel actually carries: strings,
integers, and flat objects (json.dumps on the source's command dict
literals produces exactly these).  Other JSON forms (floats, arrays,
booleans, null) never occur on this channel and are outside the model. -/
inductive JVal where
  | s : String → JVal
  | i : Int → JVal
  | obj : List (String × JVal) → JVal

/-- Whitespace characters Python's json.loads skips between tokens. -/
def isJsonWs (c : Char) : Bool :=
  c = ' ' || c = '\t' || c = '\n' || c = '\r'

/-- Skip JSON whitespace. -/
def skipWs : List Char → List Char
  | [] => []
  | c :: rest => if isJsonWs c then skipWs rest else c :: rest

/-- Read the characters of a JSON string literal after its opening quote, up
to the closing quote.  Escape sequences never occur in the commands the
client serializes; a backslash is treated as a parse failure (conservative
subset of json.loads). -/
def takeStrChars : List Char → Option (List Char × List Char)
  | [] => none
  | c :: rest =>
    if c = '"' then some ([], rest)
    else if c = '\\' then none
    else
      match takeStrChars rest with
      | some (s, r) => some (c :: s, r)
      | none => none

/-- Decimal digit test. -/
def isDigitCh (c : Char) : Bool :=
  decide ('0' ≤ c) && decide (c ≤ '9')

/-- Split a character list into its leading run of decimal digits and the
remainder. -/
def takeDigits : List Char → List Char × List Char
  | [] => ([], [])
  | c :: rest =>
    if isDigitCh c then
      let (ds, r) := takeDigits rest
      (c :: ds, r)
    else ([], c :: rest)

/-- Value of a list of decimal digit characters. -/
def digitsToNat (ds : List Char) : Nat :=
  ds.foldl (fun a c => a * 10 + (c.toNat - 48)) 0

mutual

/-- Recursive-descent embedding of Python's json.loads restricted to the
grammar the control channel uses: strings, (possibly negative) integers,
and objects.  The fuel argument only bounds nesting depth; jsonLoads passes
more fuel than any input can consume. -/
def parseVal : Nat → List Char → Option (JVal × List Char)
  | 0, _ => none
  | fuel + 1, input =>
    match skipWs input with
    | [] => none
    | c :: rest =>
      if c = '"' then
        match takeStrChars rest with
        | some (s, r) => some (.s ⟨s⟩, r)
        | none => none
      else if c = lbrace then
        match skipWs rest with
        | [] => none
        | d :: rest2 =>
          if d = rbrace then some (.obj [], rest2)
          else
            match parseFields fuel (d :: rest2) with
            | some (fs, r) => some (.obj fs, r)
            | none => none
      else if c = '-' then
        match takeDigits rest with
        | ([], _) => none
        | (ds, r) => some (.i (-(digitsToNat ds : Int)), r)
      else if isDigitCh c then
        match takeDigits (c :: rest) with
        | (ds, r) => some (.i (digitsToNat ds : Int), r)
      else none

/-- Parse the nonempty field list of a JSON object, up to and including the
closing bracket. -/
def parseFields : Nat → List Char → Option (List (String × JVal) × List Char)
  | 0, _ => none
  | fuel + 1, input =>
    match skipWs input with
    | [] => none
    | c :: rest =>
      if c = '"' then
        match takeStrChars rest with
        | none => none
        | some (k, r1) =>
          match skipWs r1 with
          | [] => none
          | d :: r2 =>
            if d = ':' then
              match parseVal fuel r2 with
              | none => none
              | some (v, r3) =>
                match skipWs r3 with
                | [] => none
                | e :: r4 =>
                  if e = ',' then
                    match parseFields fuel r4 with
                    | some (fs, r5) => some ((⟨k⟩, v) :: fs, r5)
                    | none => none
                  else if e = rbrace then some ([(⟨k⟩, v)], r4)
                  else none
            else none
      else none

end

/-- json.loads on a whole message: a single value with nothing but
whitespace after it; anything else raises (modelled as None). -/
def jsonLoads (s : String) : Option JVal :=
  match parseVal (s.length + 1) s.data with
  | some (v, rest) => if (skipWs rest).isEmpty then some v else none
  | none => none

/-- Decimal digits of a positive number, most significant first; the fuel
argument only bounds the recursion depth (n itself is always enough). -/
def natReprGo : Nat → Nat → List Char
  | 0, _ => []
  | _ + 1, 0 => []
  | fuel + 1, n + 1 => natReprGo fuel ((n + 1) / 10) ++ [Nat.digitChar ((n + 1) % 10)]

/-- Decimal representation of a natural number, as Python prints it. -/
def natRepr (n : Nat) : List Char :=
  if n = 0 then ['0'] else natReprGo n n

/-- Decimal representation of an integer, as json.dumps renders an int. -/
def intRepr (n : Int) : List Char :=
  if n < 0 then '-' :: natRepr n.natAbs else natRepr n.natAbs

/-- Serialization of one field value, as json.dumps renders it.  The
source's command dict literals only carry string and int values, so the
object case never occurs in a serialized field. -/
def dumpAtomChars : JVal → List Char
  | .s v => '"' :: v.data ++ ['"']
  | .i v => intRepr v
  | .obj _ => []

/-- The serialized field list of a flat command dict: fields in insertion
order, rendered with json.dumps's default separators (comma-space between
fields, colon-space after each key). -/
def dumpFields : List (String × JVal) → List Char
  | [] => []
  | [(k, v)] => '"' :: k.data ++ '"' :: ':' :: ' ' :: dumpAtomChars v
  | (k, v) :: f :: rest =>
    '"' :: k.data ++ '"' :: ':' :: ' ' :: dumpAtomChars v ++ ',' :: ' ' :: dumpFields (f :: rest)

/-- json.dumps of a flat command dict. -/
def jsonDumps (fields : List (String × JVal)) : String :=
  ⟨lbrace :: dumpFields fields ++ [rbrace]⟩

/-- Characters that serialize into a JSON string without escaping: the
command records the client sends only contain such strings. -/
def plainB (s : List Char) : Bool := s.all (fun c => !(c = '"') && !(c = '\\'))

/-- The head of the character list, if any, is not a decimal digit (the
terminator condition after a serialized integer). -/
def headNotDigit : List Char → Bool
  | [] => true
  | c :: _ => !(isDigitCh c)

/-- Field values the client's flat command dicts carry: plain strings and
integers. -/
def atomOKB : JVal → Bool
  | .s v => plainB v.data
  | .i _ => true
  | .obj _ => false

/-- A flat command record as built by ControlClient's send methods: plain
string keys, atom values. -/
def fieldsOKB (fields : List (String × JVal)) : Bool :=
  fields.all (fun f => plainB f.1.data && atomOKB f.2)

/-- The pynput special keys the source's name table can produce.  fkey i
stands for keyboard.Key.fi (the source registers f1 through f12 in a
loop). -/
inductive SpecialKey where
  | shift | ctrl | alt | enter | backspace | tab | esc | space
  | up | down | left | right | delete | home | end_ | pageUp | pageDown
  | fkey : Nat → SpecialKey
deriving DecidableEq

/-- A key as passed to the keyboard controller: either a pynput special key
or a character string passed through verbatim. -/
inductive KeyT where
  | special : SpecialKey → KeyT
  | char : String → KeyT
deriving DecidableEq

/-- ControlServer._parse_key's special_keys dict, entry for entry; the last
twelve entries unroll the source's f-key loop. -/
def specialKeys : List (String × SpecialKey) :=
  [("shift", .shift), ("ctrl", .ctrl), ("alt", .alt), ("enter", .enter),
   ("backspace", .backspace), ("tab", .tab), ("escape", .esc), ("space", .space),
   ("up", .up), ("down", .down), ("left", .left), ("right", .right),
   ("delete", .delete), ("home", .home), ("end", .end_),
   ("page_up", .pageUp), ("page_down", .pageDown),
   ("f1", .fkey 1), ("f2", .fkey 2), ("f3", .fkey 3), ("f4", .fkey 4),
   ("f5", .fkey 5), ("f6", .fkey 6), ("f7", .fkey 7), ("f8", .fkey 8),
   ("f9", .fkey 9), ("f10", .fkey 10), ("f11", .fkey 11), ("f12", .fkey 12)]

/-- Python's str.lower on the character data (the key names reaching
_parse_key are ASCII: the fixed names of the client's key table or single
characters, for which lower is the ASCII mapping). -/
def strLower (s : String) : String :=
  ⟨s.data.map Char.toLower⟩

/-- ControlServer._parse_key: look the lower-cased name up in the table and
fall back to the string itself. -/
def parseKey (s : String) : KeyT :=
  match specialKeys.lookup (strLower s) with
  | some k => .special k
  | none => .char s

/-- Modelled from the pynput external library: Controller.press and
Controller.release accept a special Key or a single-character string;
any other string raises ValueError (which _execute_command's except
clause catches), so nothing is injected for it. -/
def injectKey (k : KeyT) : Option KeyT :=
  match k with
  | .special _ => some k
  | .char s => if s.length = 1 then some k else none

/-- Mouse buttons as chosen by _execute_command. -/
inductive MButton where
  | left | right
deriving DecidableEq

/-- An OS input-injection call made by ControlServer._execute_command. -/
inductive Effect where
  | moveTo : Int → Int → Effect
  | press : MButton → Effect
  | release : MButton → Effect
  | scroll : Int → Int → Effect
  | keyPress : KeyT → Effect
  | keyRelease : KeyT → Effect
deriving DecidableEq

/-- Subscript into a decoded JSON object, as cmd[k] on the dict json.loads
builds: a duplicate key keeps its last value, a missing key raises KeyError
(returned as none; the caller's except clause turns that into no effect). -/
def dictGet (o : List (String × JVal)) (k : String) : Option JVal :=
  o.reverse.lookup k

/-- Truth value of a Python comparison of a decoded JSON value with a string
literal. -/
def jvalIsStr (v : JVal) (t : String) : Bool :=
  match v with
  | .s u => u = t
  | _ => false

/-- ControlServer._execute_command: dispatch on cmd's type field and perform
the matching input injections.  The whole body sits in a try block whose
except clause logs and returns, so a missing field (KeyError), a
non-object command (TypeError on subscript), a non-string key name
(AttributeError on lower), or a pynput rejection produces no effect and
never propagates to the caller. -/
def executeCommand (v : JVal) : List Effect :=
  match v with
  | .obj o =>
    match dictGet o ("type") with
    | some tv =>
      match tv with
      | .s t =>
        match t with
        | "mouse_move" =>
          match dictGet o ("x"), dictGet o ("y") with
          | some (.i x), some (.i y) => [.moveTo x y]
          | _, _ => []
        | "mouse_click" =>
          match dictGet o ("button"), dictGet o ("action") with
          | some b, some a =>
            let btn := if jvalIsStr b ("left") then MButton.left else MButton.right
            if jvalIsStr a ("press") then [.press btn] else [.release btn]
          | _, _ => []
        | "mouse_scroll" =>
          match dictGet o ("dx"), dictGet o ("dy") with
          | some (.i dx), some (.i dy) => [.scroll dx dy]
          | _, _ => []
        | "key" =>
          match dictGet o ("key"), dictGet o ("action") with
          | some (.s ks), some a =>
            match injectKey (parseKey ks) with
            | some k => if jvalIsStr a ("press") then [.keyPress k] else [.keyRelease k]
            | none => []
          | _, _ => []
        | _ => []
      | _ => []
    | none => []
  | _ => []

/-- How ControlServer._handle_client's command loop ended. -/
inductive CloseReason where
  /-- recv returned empty: the peer closed; the loop breaks normally -/
  | peerClosed
  /-- an exception escaped the loop body (e.g. json.loads failed); the
  bare except clause breaks -/
  | errorBreak
deriving DecidableEq

/-- ControlServer._handle_client, embedded over the sequence of recv results
(each element one chunk, already UTF-8 decoded; the list running out models
the peer closing, after which recv returns empty).  Mirrors the source
loop: break on empty data, decode JSON (any exception breaks via the bare
except), execute the command, continue.  Returns every injection performed
and the reason the loop ended; client.close() runs in both cases. -/
def handleClient : List String → List Effect × CloseReason
  | [] => ([], .peerClosed)
  | m :: rest =>
    if m = "" then ([], .peerClosed)
    else
      match jsonLoads m with
      | none => ([], .errorBreak)
      | some v =>
        let done := handleClient rest
        (executeCommand v ++ done.1, done.2)

/-- Python's int() conversion on a rational: truncation toward zero. -/
def pyInt (q : ℚ) : Int :=
  if q < 0 then ⌈q⌉ else ⌊q⌋

/-- ControlClient.send_mouse_move: the serialized record written to the
control socket when the client is connected, with both coordinates divided
by the client's scale factor and truncated by int(). -/
def sendMouseMove (x y : Int) (scale : ℚ) : String :=
  jsonDumps [("type", .s ("mouse_move")),
             ("x", .i (pyInt (x / scale))), ("y", .i (pyInt (y / scale)))]

/-- ControlClient.send_mouse_click: the serialized record written when
connected. -/
def sendMouseClick (button action : String) : String :=
  jsonDumps [("type", .s ("mouse_click")), ("button", .s button), ("action", .s action)]

/-- One send pass of ScreenServer._stream_screen's broadcast loop: iterate
over the current client list in order, attempt the frame write to each
client, and collect the clients whose write failed into dead_clients.
Clients are identified by numbers; `fails` says whose sendall raises.
Returns (clients that received the frame, dead_clients), both in iteration
order. -/
def broadcastPass : List Nat → (Nat → Bool) → List Nat × List Nat
  | [], _ => ([], [])
  | c :: rest, fails =>
    let done := broadcastPass rest fails
    if fails c then (done.1, c :: done.2) else (c :: done.1, done.2)

/-- The removal loop that runs after the pass: self.clients.remove(client)
for each dead client (Python's list.remove drops the first occurrence). -/
def removeDead (clients dead : List Nat) : List Nat :=
  dead.foldl (fun cs c => cs.erase c) clients

/-- One full broadcast cycle: the complete send pass over all clients, then
the deferred removal of the dead ones.  Returns (clients that received the
frame, the client list for the next cycle). -/
def broadcastCycle (clients : List Nat) (fails : Nat → Bool) : List Nat × List Nat :=
  let done := broadcastPass clients fails
  (done.1, removeDead clients done.2)

/-- FileClient.send_file: the complete byte stream the sender writes —
packed 8-byte header (filename length, file size), the encoded filename,
then the file contents (the sender's chunked writes concatenate to exactly
these bytes on the TCP stream). -/
def sendFileBytes (filename content : List Nat) : List Nat :=
  u32be filename.length ++ u32be content.length ++ filename ++ content

/-- The content loop of FileServer._receive_file: while fewer than the
declared number of bytes have been received, recv the next chunk (at most
min(BUFFER_SIZE, remaining) bytes); an empty chunk — the peer closed —
breaks the loop.  Returns the bytes written to the destination file. -/
def recvContent : List (List Nat) → Nat → List Nat
  | _, 0 => []
  | [], _ => []
  | c :: rest, need + 1 =>
    if c.isEmpty then [] else c ++ recvContent rest (need + 1 - c.length)

/-- Result of FileServer._receive_file. -/
inductive FileOutcome where
  /-- the destination file holds the given bytes under the given name, and
  the received-file log line reports the given size; no error raised -/
  | ok : List Nat → List Nat → Nat → FileOutcome
  /-- an exception was caught and the error log line printed -/
  | err : FileOutcome
deriving DecidableEq

/-- FileServer._receive_file, embedded over the sequence of recv results:
one recv call for the 8-byte header (struct.unpack raises on a short
read — the stream having closed gives the empty result — and the except
clause reports an error), one recv call for the filename (recv(0) when the
declared name length is zero returns empty at once without a socket read),
then the accumulating content loop.  Success always logs the declared file
size, regardless of how many content bytes actually arrived.  Filesystem
behavior (the save directory, open, write) is not modelled beyond the
bytes written. -/
def receiveFile : List (List Nat) → FileOutcome
  | [] => .err
  | header :: rest =>
    match unpackII header with
    | none => .err
    | some (nameLen, fileSize) =>
      if nameLen = 0 then .ok [] (recvContent rest fileSize) fileSize
      else
        match rest with
        | [] => .ok [] (recvContent [] fileSize) fileSize
        | nameChunk :: rest2 => .ok (nameChunk.take nameLen) (recvContent rest2 fileSize) fileSize

/-- Valid sequences of recv results for the content loop needing `need`
bytes: each chunk is nonempty and no longer than the loop's request
min(BUFFER_SIZE, remaining). -/
def validFileChunks : Nat → List (List Nat) → Bool
  | _, [] => true
  | 0, _ => true
  | need + 1, c :: rest =>
    decide (0 < c.length) && decide (c.length ≤ min (need + 1) BUFFER_SIZE)
      && validFileChunks (need + 1 - c.length) rest

theorem recvExactGo_length (size : Nat) :
    ∀ (chunks : List (List Nat)) (data : List Nat),
      data.length ≤ size →
      validChunks (size - data.length) chunks = true →
      ∀ d rest, recvExactGo size chunks data = (some d, rest) → d.length = size := by
  intro chunks
  induction chunks with
  | nil =>
    intro data hle _ d rest h
    simp only [recvExactGo] at h
    split at h
    · cases h
      omega
    · cases h
  | cons c cs ih =>
    intro data hle hv d rest h
    simp only [recvExactGo] at h
    split at h
    · cases h
      omega
    · rename_i hlt
      simp only [validChunks, Bool.and_eq_true, decide_eq_true_eq] at hv
      obtain ⟨hc, hv'⟩ := hv
      split at h
      · cases h
      · have hlen : (data ++ c).length ≤ size := by
          simp only [List.length_append]
          omega
        have hneed : size - (data ++ c).length = size - data.length - c.length := by
          simp only [List.length_append]
          omega
        exact ih (data ++ c) hlen (by rw [hneed]; exact hv') d rest h

theorem recvExact_zero (chunks : List (List Nat)) :
    recvExact 0 chunks = (some [], chunks) := by
  cases chunks <;> simp [recvExact, recvExactGo]

theorem unpackII_length {h : List Nat} {p : Nat × Nat} (hp : unpackII h = some p) :
    h.length = 8 := by
  simp only [unpackII] at hp
  split at hp
  · assumption
  · cases hp

theorem isEmpty_false_of_unpackII {h : List Nat} {p : Nat × Nat} (hp : unpackII h = some p) :
    h.isEmpty = false := by
  have h8 := unpackII_length hp
  cases h with
  | nil => simp at h8
  | cons a l => rfl

/-- C8: ScreenClient._recv_exact(n), run against any possible sequence of recv
results, returns either a byte string of exactly n bytes or None; it never
returns a partial result shorter than n.  For n = 0 it returns the empty
byte string immediately, consuming nothing from the socket. -/
theorem C8_recv_exact_all_or_nothing (n : Nat) (chunks : List (List Nat))
    (hv : validChunks n chunks = true) :
    (∀ d rest, recvExact n chunks = (some d, rest) → d.length = n) ∧
    recvExact 0 chunks = (some [], chunks) := by
  constructor
  · intro d rest h
    exact recvExactGo_length n chunks [] (by simp) (by simpa using hv) d rest h
  · exact recvExact_zero chunks

/-- C8 witness: a 3-byte read split across two recv results. -/
theorem C8_recv_exact_all_or_nothing_witness :
    (∀ d rest, recvExact 3 [[1, 2], [3]] = (some d, rest) → d.length = 3) ∧
    recvExact 0 [[1, 2], [3]] = (some [], [[1, 2], [3]]) :=
  C8_recv_exact_all_or_nothing 3 [[1, 2], [3]] (by decide)

/-- C2 counterexample: a frame whose 7-byte payload is the ASCII bytes of
garbage text (not a zlib stream), followed by a further well-formed header
in the stream.  The claim says the loop logs the failure and continues to
the next header; the code's except clause breaks instead, so the iteration
yields stop and the following header is never processed. -/
theorem C2_corrupt_frame_counterexample :
    receiveIter [[0, 0, 0, 7, 0, 0, 0, 100], [103, 97, 114, 98, 97, 103, 101],
        [0, 0, 0, 2, 0, 0, 0, 100]]
      = (.stop, [[0, 0, 0, 2, 0, 0, 0, 100]]) := rfl

/-- C2 amended: a payload that fails zlib decompression raises inside the
try block, is logged by the except clause, and terminates the receive loop
(the connection handling ends); only a payload that decompresses but that
cv2.imdecode cannot turn into an image is dropped silently with the loop
continuing to the next header. -/
theorem C2_decode_failure_behavior (chunks : List (List Nat))
    (header : List Nat) (rest : List (List Nat)) (size scale : Nat)
    (payload : List Nat) (rest2 : List (List Nat))
    (h1 : recvExact 8 chunks = (some header, rest))
    (h2 : unpackII header = some (size, scale))
    (h3 : recvExact size rest = (some payload, rest2))
    (h4 : payload ≠ []) :
    (zlibDecompress payload = none → receiveIter chunks = (.stop, rest2)) ∧
    (∀ buf, zlibDecompress payload = some buf → imdecode buf = none →
      receiveIter chunks = (.skipped, rest2)) := by
  have hne := isEmpty_false_of_unpackII h2
  have hpe : payload.isEmpty = false := by
    cases payload with
    | nil => exact absurd rfl h4
    | cons a l => rfl
  constructor
  · intro hz
    simp [receiveIter, h1, h2, h3, hz, hne, hpe]
  · intro buf hz hi
    simp [receiveIter, h1, h2, h3, hz, hi, hne, hpe]

/-- C2 witness: the garbage payload instantiates the zlib-failure branch and
a syntactically valid zlib wrapper around non-JPEG bytes instantiates the
image-failure branch. -/
theorem C2_decode_failure_behavior_witness :
    (zlibDecompress [103, 97, 114, 98, 97, 103, 101] = none →
      receiveIter [[0, 0, 0, 7, 0, 0, 0, 100], [103, 97, 114, 98, 97, 103, 101]]
        = (.stop, [])) ∧
    (∀ buf, zlibDecompress [103, 97, 114, 98, 97, 103, 101] = some buf → imdecode buf = none →
      receiveIter [[0, 0, 0, 7, 0, 0, 0, 100], [103, 97, 114, 98, 97, 103, 101]]
        = (.skipped, [])) :=
  C2_decode_failure_behavior [[0, 0, 0, 7, 0, 0, 0, 100], [103, 97, 114, 98, 97, 103, 101]]
    [0, 0, 0, 7, 0, 0, 0, 100] [[103, 97, 114, 98, 97, 103, 101]] 7 100
    [103, 97, 114, 98, 97, 103, 101] [] (by decide) (by decide) (by decide) (by decide)

/-- C5 counterexample: a frame header declaring payload_length = 0, followed
by a further well-formed header.  The claim says the loop treats it as a
valid empty frame and proceeds to read the next header; instead
_recv_exact(0) returns the empty byte string, the falsiness test treats it
like a closed connection, and the loop stops, leaving the next header
unread. -/
theorem C5_empty_frame_counterexample :
    receiveIter [[0, 0, 0, 0, 0, 0, 0, 100], [0, 0, 0, 2, 0, 0, 0, 100]]
      = (.stop, [[0, 0, 0, 2, 0, 0, 0, 100]]) := rfl

/-- C5 amended: a frame with payload_length = 0 does not block the reader
(_recv_exact(0) returns the empty byte string at once, consuming nothing
from the socket), but the empty result then fails the falsiness test on the
payload and the read loop terminates instead of proceeding to the next
header. -/
theorem C5_empty_frame_behavior (chunks : List (List Nat))
    (header : List Nat) (rest : List (List Nat)) (scale : Nat)
    (h1 : recvExact 8 chunks = (some header, rest))
    (h2 : unpackII header = some (0, scale)) :
    receiveIter chunks = (.stop, rest) ∧ recvExact 0 rest = (some [], rest) := by
  have hne := isEmpty_false_of_unpackII h2
  have hz := recvExact_zero rest
  refine ⟨?_, hz⟩
  simp [receiveIter, h1, h2, hne, hz]

/-- C5 witness: a concrete zero-length frame followed by more stream data. -/
theorem C5_empty_frame_behavior_witness :
    receiveIter [[0, 0, 0, 0, 0, 0, 0, 100], [9, 9]] = (.stop, [[9, 9]]) ∧
    recvExact 0 [[9, 9]] = (some [], [[9, 9]]) :=
  C5_empty_frame_behavior [[0, 0, 0, 0, 0, 0, 0, 100], [9, 9]]
    [0, 0, 0, 0, 0, 0, 0, 100] [[9, 9]] 100 (by decide) (by decide)

/-- C1 counterexample: the chunk of bytes spelling garbage text does not
parse as JSON.  The claim says it is dropped with the connection left open
and the next valid command still processed; in fact the loop breaks and
closes the connection with no command executed, while the same mouse_move
message alone is processed fine — so the malformed chunk, not a socket
error, tore the connection down. -/
theorem C1_malformed_command_counterexample :
    handleClient [("garbage"), sendMouseMove 100 200 1] = ([], .errorBreak) ∧
    handleClient [sendMouseMove 100 200 1] = ([.moveTo 100 200], .peerClosed) := by
  constructor
  · rfl
  · have h1 : pyInt (((100 : Int) : ℚ) / (1 : ℚ)) = 100 := by norm_num [pyInt]
    have h2 : pyInt (((200 : Int) : ℚ) / (1 : ℚ)) = 200 := by norm_num [pyInt]
    rw [sendMouseMove, h1, h2]
    rfl

/-- C1 amended: a received chunk that does not parse as JSON terminates the
command loop and closes the connection (no later command on that
connection is processed); only a chunk that parses as JSON — even one that
is not a valid command, which _execute_command drops after logging —
leaves the loop running on the next chunk. -/
theorem C1_command_loop_behavior (m : String) (rest : List String) (hm : m ≠ "") :
    (jsonLoads m = none → handleClient (m :: rest) = ([], .errorBreak)) ∧
    (∀ v, jsonLoads m = some v →
      handleClient (m :: rest)
        = (executeCommand v ++ (handleClient rest).1, (handleClient rest).2)) := by
  constructor
  · intro h
    simp [handleClient, hm, h]
  · intro v h
    simp [handleClient, hm, h]

/-- C1 witness: the two branches at concrete inputs — garbage closes, a
JSON object that is no valid command leaves the loop running. -/
theorem C1_command_loop_behavior_witness :
    (jsonLoads ("garbage") = none → handleClient [("garbage")] = ([], .errorBreak)) ∧
    (∀ v, jsonLoads ("garbage") = some v →
      handleClient [("garbage")]
        = (executeCommand v ++ (handleClient []).1, (handleClient []).2)) :=
  C1_command_loop_behavior ("garbage") [] (by decide)

/-- C6: every name in the fixed table resolves to its special key; a single
character whose lower-cased form is not in the table is passed through
verbatim and injected as that character; any other string not in the table
is also passed through verbatim, but the keyboard controller rejects it,
the exception is caught, and nothing is injected. -/
theorem C6_parse_key_resolution :
    (∀ name k, (name, k) ∈ specialKeys → parseKey name = .special k) ∧
    (∀ s : String, s.length = 1 → specialKeys.lookup (strLower s) = none →
      parseKey s = .char s ∧ injectKey (parseKey s) = some (.char s)) ∧
    (∀ s : String, s.length ≠ 1 → specialKeys.lookup (strLower s) = none →
      parseKey s = .char s ∧ injectKey (parseKey s) = none) := by
  refine ⟨?_, ?_, ?_⟩
  · intro name k h
    fin_cases h <;> rfl
  · intro s h1 h2
    have hp : parseKey s = .char s := by simp [parseKey, h2]
    refine ⟨hp, ?_⟩
    rw [hp]
    simp [injectKey, h1]
  · intro s h1 h2
    have hp : parseKey s = .char s := by simp [parseKey, h2]
    refine ⟨hp, ?_⟩
    rw [hp]
    simp [injectKey, h1]

/-- C6 witness: a table name, a single character, and a multi-character
non-name. -/
theorem C6_parse_key_resolution_witness :
    parseKey ("page_up") = .special .pageUp ∧
    (parseKey ("A") = .char ("A") ∧ injectKey (parseKey ("A")) = some (.char ("A"))) ∧
    (parseKey ("foo") = .char ("foo") ∧ injectKey (parseKey ("foo")) = none) :=
  ⟨C6_parse_key_resolution.1 ("page_up") .pageUp (by decide),
   C6_parse_key_resolution.2.1 ("A") (by decide) (by decide),
   C6_parse_key_resolution.2.2 ("foo") (by decide) (by decide)⟩

/-- C10: a mouse_click command whose button value is anything other than the
string left — another string, or even a non-string value — is executed
with the right button, pressed or released according to the action value;
no button value is rejected. -/
theorem C10_nonleft_button_is_right (bv av : JVal) (hb : jvalIsStr bv ("left") = false) :
    executeCommand (.obj [("type", .s ("mouse_click")), ("button", bv), ("action", av)])
      = [if jvalIsStr av ("press") then .press .right else .release .right] := by
  show (let btn := if jvalIsStr bv ("left") then MButton.left else MButton.right
        if jvalIsStr av ("press") then [Effect.press btn] else [Effect.release btn]) = _
  rw [hb]
  simp only [Bool.false_eq_true, if_false]
  split <;> rfl

/-- C10 witness: button value middle is executed as a right-button press. -/
theorem C10_nonleft_button_is_right_witness :
    executeCommand (.obj [("type", .s ("mouse_click")), ("button", .s ("middle")),
        ("action", .s ("press"))])
      = [if jvalIsStr (.s ("press")) ("press") then .press .right else .release .right] :=
  C10_nonleft_button_is_right (.s ("middle")) (.s ("press")) (by rfl)

theorem broadcastPass_eq (clients : List Nat) (fails : Nat → Bool) :
    broadcastPass clients fails
      = (clients.filter (fun c => !(fails c)), clients.filter fails) := by
  induction clients with
  | nil => rfl
  | cons c rest ih =>
    simp only [broadcastPass, ih, List.filter_cons]
    cases h : fails c <;> simp [h]

theorem foldl_erase_cons (c : Nat) (l ds : List Nat) (h : ∀ a ∈ ds, a ≠ c) :
    ds.foldl (fun cs x => cs.erase x) (c :: l)
      = c :: ds.foldl (fun cs x => cs.erase x) l := by
  induction ds generalizing l with
  | nil => rfl
  | cons d ds ih =>
    have hdc : d ≠ c := h d (List.mem_cons_self d ds)
    have hcd : ¬(c == d) = true := by simpa using hdc.symm
    simp only [List.foldl_cons, List.erase_cons]
    rw [if_neg hcd]
    exact ih (l.erase d) (fun a ha => h a (List.mem_cons_of_mem d ha))

theorem removeDead_filter (clients : List Nat) (p : Nat → Bool) (hnd : clients.Nodup) :
    removeDead clients (clients.filter p) = clients.filter (fun c => !(p c)) := by
  induction clients with
  | nil => rfl
  | cons c rest ih =>
    have hnotmem : c ∉ rest := (List.nodup_cons.mp hnd).1
    have hrest : rest.Nodup := (List.nodup_cons.mp hnd).2
    simp only [List.filter_cons]
    cases hp : p c
    · simp only [Bool.false_eq_true, if_false, Bool.not_false, if_true]
      have h : ∀ a ∈ rest.filter p, a ≠ c := by
        intro a ha hac
        exact hnotmem (hac ▸ List.mem_of_mem_filter ha)
      rw [removeDead, foldl_erase_cons c rest (rest.filter p) h]
      rw [removeDead] at ih
      rw [ih hrest]
    · simp only [if_true, Bool.not_true, Bool.false_eq_true, if_false]
      rw [removeDead, List.foldl_cons, List.erase_cons_head]
      rw [removeDead] at ih
      exact ih hrest

/-- C7: in one broadcast cycle over a duplicate-free viewer list, every
viewer whose write succeeds receives the frame — including viewers
iterated after a dead one — and the dead viewers are exactly the failing
ones, removed from the viewer set only by the end of the cycle: the next
cycle's list is the original list minus precisely the dead viewers. -/
theorem C7_dead_viewer_removal (clients : List Nat) (fails : Nat → Bool)
    (hnd : clients.Nodup) :
    (broadcastPass clients fails).1 = clients.filter (fun c => !(fails c)) ∧
    (broadcastPass clients fails).2 = clients.filter fails ∧
    broadcastCycle clients fails
      = (clients.filter (fun c => !(fails c)), clients.filter (fun c => !(fails c))) := by
  have hp := broadcastPass_eq clients fails
  refine ⟨by rw [hp], by rw [hp], ?_⟩
  rw [broadcastCycle, hp]
  simp only []
  rw [removeDead_filter clients fails hnd]

/-- C7 witness: viewer 2 of three dies; 1 and 3 still get the frame and the
set for the next cycle is exactly \x7b1, 3\x7d. -/
theorem C7_dead_viewer_removal_witness :
    (broadcastPass [1, 2, 3] (fun c => c == 2)).1
        = [1, 2, 3].filter (fun c => !(c == 2)) ∧
    (broadcastPass [1, 2, 3] (fun c => c == 2)).2 = [1, 2, 3].filter (fun c => c == 2) ∧
    broadcastCycle [1, 2, 3] (fun c => c == 2)
      = ([1, 2, 3].filter (fun c => !(c == 2)), [1, 2, 3].filter (fun c => !(c == 2))) :=
  C7_dead_viewer_removal [1, 2, 3] (fun c => c == 2) (by decide)

theorem u32beDecode_u32be (n : Nat) (h : n < 2 ^ 32) : u32beDecode (u32be n) = n := by
  simp only [u32be, u32beDecode]
  omega

theorem unpackII_pack (a b : Nat) (ha : a < 2 ^ 32) (hb : b < 2 ^ 32) :
    unpackII (u32be a ++ u32be b) = some (a, b) := by
  have hlen : (u32be a).length = 4 := rfl
  rw [unpackII]
  rw [if_pos (by simp [u32be])]
  rw [← hlen, List.take_left, List.drop_left]
  rw [u32beDecode_u32be a ha, u32beDecode_u32be b hb]

theorem recvContent_complete :
    ∀ (chunks : List (List Nat)) (need : Nat),
      validFileChunks need chunks = true → chunks.flatten.length = need →
      recvContent chunks need = chunks.flatten := by
  intro chunks
  induction chunks with
  | nil =>
    intro need _ hlen
    simp only [List.flatten_nil, List.length_nil] at hlen
    subst hlen
    rfl
  | cons c rest ih =>
    intro need hv hlen
    match need with
    | 0 =>
      simp only [List.flatten_cons, List.length_append] at hlen
      have hc : c = [] := List.eq_nil_of_length_eq_zero (by omega)
      have hr : rest.flatten = [] := List.eq_nil_of_length_eq_zero (by omega)
      simp [recvContent, hc, hr]
    | k + 1 =>
      simp only [validFileChunks, Bool.and_eq_true, decide_eq_true_eq] at hv
      obtain ⟨⟨hpos, hle⟩, hv'⟩ := hv
      have hne : c.isEmpty = false := by
        cases c with
        | nil => simp at hpos
        | cons a l => rfl
      simp only [List.flatten_cons, List.length_append] at hlen
      rw [recvContent, if_neg (by simp [hne]), List.flatten_cons]
      have : rest.flatten.length = k + 1 - c.length := by omega
      rw [ih (k + 1 - c.length) hv' this]

theorem recvContent_length_le :
    ∀ (chunks : List (List Nat)) (need : Nat),
      (recvContent chunks need).length ≤ chunks.flatten.length := by
  intro chunks
  induction chunks with
  | nil =>
    intro need
    cases need <;> simp [recvContent]
  | cons c rest ih =>
    intro need
    match need with
    | 0 => simp [recvContent]
    | k + 1 =>
      rw [recvContent]
      split
      · simp
      · simp only [List.flatten_cons, List.length_append, List.length_append]
        exact Nat.add_le_add_left (ih (k + 1 - c.length)) c.length

/-- C3 counterexample: the exact byte stream FileClient.send_file produces
for a 1-byte filename and a 5-byte file, delivered with the 8-byte header
split across two recv results (a legal behavior of a TCP stream).  The
claim says the receiver accumulates the header until complete and stores a
byte-identical file; instead the single recv gets 4 bytes, struct.unpack
raises, and the receive fails with no file content stored. -/
theorem C3_split_header_counterexample :
    [[0, 0, 0, 1], [0, 0, 0, 5], [65], [1, 2, 3, 4, 5]].flatten
        = sendFileBytes [65] [1, 2, 3, 4, 5] ∧
    receiveFile [[0, 0, 0, 1], [0, 0, 0, 5], [65], [1, 2, 3, 4, 5]] = .err := by
  exact ⟨rfl, rfl⟩

/-- C3 amended: only the file-content bytes are accumulated across partial
reads; the 8-byte header and the filename are each read with a single
recv.  The destination file is byte-identical to the source provided the
header arrives in one 8-byte read and the filename in one complete read;
the content may then be chunked arbitrarily. -/
theorem C3_content_accumulation (name content : List Nat) (chunks : List (List Nat))
    (hn : 0 < name.length) (hn32 : name.length < 2 ^ 32) (hc32 : content.length < 2 ^ 32)
    (hv : validFileChunks content.length chunks = true)
    (hj : chunks.flatten = content) :
    receiveFile ((u32be name.length ++ u32be content.length) :: name :: chunks)
      = .ok name content content.length := by
  rw [receiveFile]
  rw [unpackII_pack name.length content.length hn32 hc32]
  simp only []
  rw [if_neg (by omega)]
  rw [List.take_length]
  rw [recvContent_complete chunks content.length hv (by rw [hj])]
  rw [hj]

/-- C3 witness: a 3-byte file arriving in two content chunks. -/
theorem C3_content_accumulation_witness :
    receiveFile ((u32be (List.length [65]) ++ u32be (List.length [7, 8, 9]))
        :: [65] :: [[7, 8], [9]])
      = .ok [65] [7, 8, 9] (List.length [7, 8, 9]) :=
  C3_content_accumulation [65] [7, 8, 9] [[7, 8], [9]]
    (by decide) (by decide) (by decide) (by decide) (by decide)

/-- C9: when the peer closes the file connection before the declared number
of content bytes arrived, the receiver exits its copy loop, keeps the
truncated file (strictly shorter than declared) under the transmitted
name, and reports the transfer as a successful receive logging the full
declared size — nothing distinguishes the partial file from a complete
one. -/
theorem C9_truncated_transfer_reported_ok (name : List Nat) (fileSize : Nat)
    (chunks : List (List Nat))
    (hn : 0 < name.length) (hn32 : name.length < 2 ^ 32) (hf32 : fileSize < 2 ^ 32)
    (hshort : chunks.flatten.length < fileSize) :
    receiveFile ((u32be name.length ++ u32be fileSize) :: name :: chunks)
      = .ok name (recvContent chunks fileSize) fileSize ∧
    (recvContent chunks fileSize).length < fileSize := by
  constructor
  · rw [receiveFile]
    rw [unpackII_pack name.length fileSize hn32 hf32]
    simp only []
    rw [if_neg (by omega)]
    rw [List.take_length]
  · exact Nat.lt_of_le_of_lt (recvContent_length_le chunks fileSize) hshort

/-- C9 witness: 5 bytes declared, the stream closes after 2. -/
theorem C9_truncated_transfer_reported_ok_witness :
    receiveFile ((u32be (List.length [65]) ++ u32be 5) :: [65] :: [[1, 2]])
      = .ok [65] (recvContent [[1, 2]] 5) 5 ∧
    (recvContent [[1, 2]] 5).length < 5 :=
  C9_truncated_transfer_reported_ok [65] 5 [[1, 2]] (by decide) (by decide) (by decide)
    (by decide)

theorem skipWs_space (t : List Char) : skipWs (' ' :: t) = skipWs t := rfl
theorem skipWs_cons_of_not_ws {c : Char} (h : isJsonWs c = false) (t : List Char) :
    skipWs (c :: t) = c :: t := by
  simp [skipWs, h]
theorem parseVal_congr (fuel : Nat) {a b : List Char} (h : skipWs a = skipWs b) :
    parseVal (fuel + 1) a = parseVal (fuel + 1) b := by
  simp only [parseVal]
  rw [h]
theorem parseFields_congr (fuel : Nat) {a b : List Char} (h : skipWs a = skipWs b) :
    parseFields (fuel + 1) a = parseFields (fuel + 1) b := by
  simp only [parseFields]
  rw [h]
theorem digitChar_isDigit (d : Nat) (h : d < 10) : isDigitCh (Nat.digitChar d) = true := by
  interval_cases d <;> decide
theorem digitChar_val (d : Nat) (h : d < 10) : (Nat.digitChar d).toNat - 48 = d := by
  interval_cases d <;> decide
theorem isDigitCh_ne_quote {c : Char} (h : isDigitCh c = true) : ¬(c = '"') := by
  intro he
  rw [he] at h
  exact absurd h (by decide)
theorem isDigitCh_ne_lbrace {c : Char} (h : isDigitCh c = true) : ¬(c = lbrace) := by
  intro he
  rw [he] at h
  exact absurd h (by decide)
theorem isDigitCh_ne_minus {c : Char} (h : isDigitCh c = true) : ¬(c = '-') := by
  intro he
  rw [he] at h
  exact absurd h (by decide)
theorem isDigitCh_not_ws {c : Char} (h : isDigitCh c = true) : isJsonWs c = false := by
  by_contra hw
  have hw' : isJsonWs c = true := by
    cases hx : isJsonWs c
    · exact absurd hx hw
    · rfl
  simp only [isJsonWs, Bool.or_eq_true, decide_eq_true_eq] at hw'
  rcases hw' with ((h1 | h1) | h1) | h1 <;> rw [h1] at h <;> exact absurd h (by decide)

theorem takeStrChars_append (s r : List Char) (h : plainB s = true) :
    takeStrChars (s ++ '"' :: r) = some (s, r) := by
  induction s with
  | nil => rfl
  | cons c t ih =>
    simp only [plainB, List.all_cons, Bool.and_eq_true, Bool.not_eq_true', decide_eq_false_iff_not]
      at h
    obtain ⟨⟨hq, hb⟩, ht⟩ := h
    simp only [List.cons_append, takeStrChars, List.append_eq]
    rw [if_neg hq, if_neg hb, ih (by simpa [plainB] using ht)]

theorem takeDigits_append (ds r : List Char) (hds : ds.all isDigitCh = true)
    (hr : headNotDigit r = true) : takeDigits (ds ++ r) = (ds, r) := by
  induction ds with
  | nil =>
    cases r with
    | nil => rfl
    | cons c t =>
      simp only [headNotDigit, Bool.not_eq_true'] at hr
      simp [takeDigits, hr]
  | cons c t ih =>
    simp only [List.all_cons, Bool.and_eq_true] at hds
    simp only [List.cons_append, takeDigits, List.append_eq]
    rw [if_pos hds.1, ih hds.2]
theorem digitsToNat_append_one (L : List Char) (c : Char) :
    digitsToNat (L ++ [c]) = digitsToNat L * 10 + (c.toNat - 48) := by
  simp [digitsToNat, List.foldl_append]

theorem natReprGo_zero : ∀ fuel, natReprGo fuel 0 = [] := by
  intro fuel
  cases fuel <;> rfl

theorem natReprGo_spec :
    ∀ fuel n, 0 < n → n ≤ fuel →
      digitsToNat (natReprGo fuel n) = n ∧ (natReprGo fuel n).all isDigitCh = true ∧
        natReprGo fuel n ≠ [] := by
  intro fuel
  induction fuel with
  | zero => intro n h1 h2; omega
  | succ f ih =>
    intro n h1 h2
    obtain ⟨m, rfl⟩ : ∃ m, n = m + 1 := ⟨n - 1, by omega⟩
    rw [natReprGo]
    have hd : (m + 1) % 10 < 10 := Nat.mod_lt _ (by omega)
    by_cases hq : (m + 1) / 10 = 0
    · rw [hq, natReprGo_zero]
      refine ⟨?_, ?_, by simp⟩
      · simp only [List.nil_append, digitsToNat, List.foldl_cons, List.foldl_nil]
        rw [digitChar_val _ hd]
        omega
      · simp only [List.nil_append, List.all_cons, List.all_nil, Bool.and_true]
        exact digitChar_isDigit _ hd
    · have hqpos : 0 < (m + 1) / 10 := Nat.pos_of_ne_zero hq
      have hqle : (m + 1) / 10 ≤ f := by omega
      obtain ⟨hv, hall, hne⟩ := ih ((m + 1) / 10) hqpos hqle
      refine ⟨?_, ?_, by simp⟩
      · rw [digitsToNat_append_one, hv, digitChar_val _ hd]
        omega
      · simp only [List.all_append, Bool.and_eq_true, List.all_cons, List.all_nil, Bool.and_true]
        exact ⟨hall, digitChar_isDigit _ hd⟩

theorem natRepr_spec (n : Nat) :
    digitsToNat (natRepr n) = n ∧ (natRepr n).all isDigitCh = true ∧ natRepr n ≠ [] := by
  rw [natRepr]
  by_cases h : n = 0
  · rw [if_pos h, h]
    exact ⟨by decide, by decide, by decide⟩
  · rw [if_neg h]
    exact natReprGo_spec n n (Nat.pos_of_ne_zero h) le_rfl
theorem parseVal_intRepr (fuel : Nat) (n : Int) (r : List Char) (hr : headNotDigit r = true) :
    parseVal (fuel + 1) (intRepr n ++ r) = some (.i n, r) := by
  obtain ⟨hv, hall, hne⟩ := natRepr_spec n.natAbs
  obtain ⟨c, t, hct⟩ : ∃ c t, natRepr n.natAbs = c :: t := by
    cases hx : natRepr n.natAbs with
    | nil => exact absurd hx hne
    | cons a l => exact ⟨a, l, rfl⟩
  have hcdig : isDigitCh c = true := by
    rw [hct, List.all_cons, Bool.and_eq_true] at hall
    exact hall.1
  have hvct : digitsToNat (c :: t) = n.natAbs := by rw [← hct]; exact hv
  by_cases hn : n < 0
  · rw [intRepr, if_pos hn, List.cons_append]
    simp only [parseVal]
    rw [skipWs_cons_of_not_ws (by decide)]
    dsimp only
    rw [if_neg (by decide : ¬('-' = '"')), if_neg (by decide : ¬('-' = lbrace)),
        if_pos (rfl : '-' = '-')]
    rw [takeDigits_append _ r hall hr, hct]
    dsimp only
    congr 2
    have h2 : (digitsToNat (c :: t) : Int) = (n.natAbs : Int) := by exact_mod_cast hvct
    rw [h2]
    have h4 : (-(n.natAbs : Int)) = n := by omega
    rw [h4]
  · rw [intRepr, if_neg hn, hct, List.cons_append]
    simp only [parseVal]
    rw [skipWs_cons_of_not_ws (isDigitCh_not_ws hcdig)]
    dsimp only
    rw [if_neg (isDigitCh_ne_quote hcdig), if_neg (isDigitCh_ne_lbrace hcdig),
        if_neg (isDigitCh_ne_minus hcdig), if_pos hcdig]
    rw [← List.cons_append, ← hct, takeDigits_append _ r hall hr, hct]
    dsimp only
    congr 2
    have h3 : (digitsToNat (c :: t) : Int) = (n.natAbs : Int) := by exact_mod_cast hvct
    rw [h3]
    have h4 : ((n.natAbs : Int)) = n := by omega
    rw [h4]
theorem parseVal_strAtom (fuel : Nat) (v : String) (r : List Char) (hv : plainB v.data = true) :
    parseVal (fuel + 1) ('"' :: v.data ++ '"' :: r) = some (.s v, r) := by
  rw [List.cons_append]
  simp only [parseVal]
  rw [skipWs_cons_of_not_ws (by decide)]
  dsimp only
  rw [if_pos (rfl : '"' = '"')]
  rw [takeStrChars_append v.data r hv]

theorem parseVal_atom (fuel : Nat) (v : JVal) (r : List Char) (hv : atomOKB v = true)
    (hr : headNotDigit r = true) :
    parseVal (fuel + 1) (dumpAtomChars v ++ r) = some (v, r) := by
  match v with
  | .s u =>
    rw [dumpAtomChars]
    have : ('"' :: u.data ++ ['"']) ++ r = '"' :: u.data ++ '"' :: r := by simp
    rw [this]
    exact parseVal_strAtom fuel u r hv
  | .i m =>
    rw [dumpAtomChars]
    exact parseVal_intRepr fuel m r hr
  | .obj o => exact absurd hv (by simp [atomOKB])
theorem headNotDigit_cons {c : Char} (h : isDigitCh c = false) (t : List Char) :
    headNotDigit (c :: t) = true := by
  simp [headNotDigit, h]

theorem parseFields_dumpFields :
    ∀ (fields : List (String × JVal)) (fuel : Nat) (r : List Char),
      fieldsOKB fields = true → fields ≠ [] → fields.length ≤ fuel →
      parseFields (fuel + 1) (dumpFields fields ++ rbrace :: r) = some (fields, r) := by
  intro fields
  induction fields with
  | nil =>
    intro fuel r _ hne _
    exact absurd rfl hne
  | cons kv tl ih =>
    obtain ⟨k, v⟩ := kv
    intro fuel r hok hne hlen
    simp only [fieldsOKB, List.all_cons, Bool.and_eq_true] at hok
    obtain ⟨⟨hk, hatom⟩, htl⟩ := hok
    cases tl with
    | nil =>
      rw [dumpFields]
      simp only [List.cons_append, List.append_assoc]
      simp only [parseFields]
      obtain ⟨f, rfl⟩ : ∃ f, fuel = f + 1 := ⟨fuel - 1, by simp at hlen; omega⟩
      rw [skipWs_cons_of_not_ws (by decide)]
      dsimp only
      rw [if_pos (rfl : '"' = '"')]
      rw [takeStrChars_append k.data _ hk]
      dsimp only
      rw [skipWs_cons_of_not_ws (by decide)]
      dsimp only
      rw [if_pos (rfl : ':' = ':')]
      rw [parseVal_congr f (skipWs_space _)]
      rw [parseVal_atom f v (rbrace :: r) hatom (headNotDigit_cons (by decide) _)]
      dsimp only
      rw [skipWs_cons_of_not_ws (by decide)]
      dsimp only
      rw [if_neg (by decide : ¬(rbrace = ',')), if_pos (rfl : rbrace = rbrace)]
    | cons kv2 tl2 =>
      rw [dumpFields]
      simp only [List.cons_append, List.append_assoc]
      simp only [parseFields]
      obtain ⟨f, rfl⟩ : ∃ f, fuel = f + 1 := ⟨fuel - 1, by simp at hlen; omega⟩
      rw [skipWs_cons_of_not_ws (by decide)]
      dsimp only
      rw [if_pos (rfl : '"' = '"')]
      rw [takeStrChars_append k.data _ hk]
      dsimp only
      rw [skipWs_cons_of_not_ws (by decide)]
      dsimp only
      rw [if_pos (rfl : ':' = ':')]
      rw [parseVal_congr f (skipWs_space _)]
      rw [parseVal_atom f v (',' :: ' ' :: (dumpFields (kv2 :: tl2) ++ rbrace :: r)) hatom
        (headNotDigit_cons (by decide) _)]
      dsimp only
      rw [skipWs_cons_of_not_ws (by decide)]
      dsimp only
      rw [if_pos (rfl : ',' = ',')]
      rw [parseFields_congr f (skipWs_space _)]
      rw [ih f r (by simpa [fieldsOKB] using htl) (by simp) (by simp at hlen ⊢; omega)]
theorem length_le_dumpFields :
    ∀ fields : List (String × JVal), fields.length ≤ (dumpFields fields).length := by
  intro fields
  induction fields with
  | nil => simp [dumpFields]
  | cons kv tl ih =>
    obtain ⟨k, v⟩ := kv
    cases tl with
    | nil => simp [dumpFields]
    | cons kv2 tl2 =>
      rw [dumpFields]
      simp only [List.length_cons, List.length_append] at ih ⊢
      omega

theorem dumpFields_head_quote (k : String) (v : JVal) (tl : List (String × JVal)) :
    ∃ t, dumpFields ((k, v) :: tl) = '"' :: t := by
  cases tl with
  | nil => exact ⟨_, by rw [dumpFields, List.cons_append]⟩
  | cons kv2 tl2 =>
    refine ⟨k.data ++ '"' :: ':' :: ' ' :: (dumpAtomChars v ++ ',' :: ' ' :: dumpFields (kv2 :: tl2)), ?_⟩
    rw [dumpFields]
    simp [List.cons_append, List.append_assoc]

theorem jsonLoads_jsonDumps (fields : List (String × JVal)) (hok : fieldsOKB fields = true)
    (hne : fields ≠ []) : jsonLoads (jsonDumps fields) = some (.obj fields) := by
  obtain ⟨⟨k, v⟩, tl, rfl⟩ : ∃ kv tl, fields = kv :: tl := by
    cases fields with
    | nil => exact absurd rfl hne
    | cons kv tl => exact ⟨kv, tl, rfl⟩
  obtain ⟨t, ht⟩ := dumpFields_head_quote k v tl
  have hdata : (jsonDumps ((k, v) :: tl)).data
      = lbrace :: (dumpFields ((k, v) :: tl) ++ [rbrace]) := by simp [jsonDumps]
  have hlen : (jsonDumps ((k, v) :: tl)).length
      = (dumpFields ((k, v) :: tl)).length + 2 := by
    simp [jsonDumps, String.length]
  rw [jsonLoads, hdata, hlen]
  simp only [parseVal]
  rw [skipWs_cons_of_not_ws (by decide)]
  dsimp only
  rw [if_neg (by decide : ¬(lbrace = '"')), if_pos (rfl : lbrace = lbrace)]
  rw [ht, List.cons_append]
  rw [skipWs_cons_of_not_ws (by decide)]
  dsimp only
  rw [if_neg (by decide : ¬('"' = rbrace))]
  rw [← List.cons_append, ← ht]
  rw [show (dumpFields ((k, v) :: tl)).length + 2
      = (dumpFields ((k, v) :: tl)).length + 1 + 1 from rfl]
  rw [parseFields_dumpFields ((k, v) :: tl) ((dumpFields ((k, v) :: tl)).length + 1) [] hok
    (by simp) (Nat.le_succ_of_le (length_le_dumpFields _))]
  rfl

/-- C4: for every connected send_mouse_move(x, y) with scale s > 0, the
serialized record carries the coordinates int(x / s) and int(y / s), and
the server, decoding that very byte sequence, executes a pointer move to
exactly that position; in particular send_mouse_move(100, 200) with
scale = 0.5 makes the server move the pointer to (200, 400). -/
theorem C4_mouse_move_roundtrip :
    (∀ (x y : Int) (s : ℚ), 0 < s →
      handleClient [sendMouseMove x y s]
        = ([.moveTo (pyInt (x / s)) (pyInt (y / s))], .peerClosed)) ∧
    handleClient [sendMouseMove 100 200 (1 / 2)] = ([.moveTo 200 400], .peerClosed) := by
  have hgen : ∀ (x y : Int) (s : ℚ), 0 < s →
      handleClient [sendMouseMove x y s]
        = ([.moveTo (pyInt (x / s)) (pyInt (y / s))], .peerClosed) := by
    intro x y s _hs
    have hok : fieldsOKB [("type", .s ("mouse_move")),
        ("x", .i (pyInt (x / s))), ("y", .i (pyInt (y / s)))] = true := by
      simp [fieldsOKB, atomOKB, plainB]
    have hne : jsonDumps [("type", .s ("mouse_move")),
        ("x", .i (pyInt (x / s))), ("y", .i (pyInt (y / s)))] ≠ "" := by
      intro h
      have hd := congrArg String.data h
      simp [jsonDumps] at hd
    rw [sendMouseMove]
    simp only [handleClient]
    rw [if_neg hne]
    rw [jsonLoads_jsonDumps _ hok (by simp)]
    dsimp only
    show (executeCommand _ ++ [], _) = _
    rw [List.append_nil]
    rfl
  refine ⟨hgen, ?_⟩
  have h1 : pyInt (((100 : Int) : ℚ) / (1 / 2 : ℚ)) = 200 := by norm_num [pyInt]
  have h2 : pyInt (((200 : Int) : ℚ) / (1 / 2 : ℚ)) = 400 := by norm_num [pyInt]
  rw [hgen 100 200 (1 / 2) (by norm_num), h1, h2]

/-- C4 witness: the general round-trip applied at the spec's example. -/
theorem C4_mouse_move_roundtrip_witness :
    handleClient [sendMouseMove 100 200 (1 / 2)]
      = ([.moveTo (pyInt (((100 : Int) : ℚ) / (1 / 2 : ℚ)))
            (pyInt (((200 : Int) : ℚ) / (1 / 2 : ℚ)))], .peerClosed) :=
  C4_mouse_move_roundtrip.1 100 200 (1 / 2) (by norm_num)

end ChenDesk
